import Mathlib

/-!
Shallow embedding of `src/parser/whatsapp_parser.py` (WhatsApp chat parser).

Strings are modelled as `List Char`.  The two regular expressions
`FULL_PATTERN` and `SHORT_PATTERN` are embedded as deterministic
character-list matchers (`fullMatch`, `shortMatch`); determinism is justified
because every variable-width piece of the patterns (`\d{1,2}`, `[^:]+`,
`[\u200E\u200F\s]*`) is followed by a delimiter that cannot occur inside the
piece, so greedy matching without backtracking is exact.  `\d` is modelled as
the ASCII digits and `\s` as the Unicode whitespace set Python's `re` uses
for text patterns.  `datetime.strptime` calls are embedded as validity-checked
constructions of a `DateTime` record (`resolveFull`, `resolveShort`); a
failing construction models the `ValueError` that Python raises.  Python list
indexing `data[-1]` on an empty list is modelled as the distinct error
`PErr.indexError`.
-/

namespace WParse

/-- Python `str` regex `\s`: Unicode whitespace. -/
def isPySpace (c : Char) : Bool :=
  c = ' ' || c = '\t' || c = '\n' || c = '\x0d' || c = '\x0b' || c = '\x0c' ||
  c = '\x1c' || c = '\x1d' || c = '\x1e' || c = '\x1f' ||
  c = '\u0085' || c = '\u00A0' || c = '\u1680' ||
  ('\u2000' ≤ c && c ≤ '\u200A') ||
  c = '\u2028' || c = '\u2029' || c = '\u202F' || c = '\u205F' || c = '\u3000'

/-- The character class `[\u200E\u200F\s]` used at the start of the patterns. -/
def isMarkOrSpace (c : Char) : Bool :=
  c = '\u200E' || c = '\u200F' || isPySpace c

def digitVal (c : Char) : Nat := c.toNat - '0'.toNat

def digitsVal (l : List Char) : Nat := l.foldl (fun a c => 10 * a + digitVal c) 0

/-- `\d{1,2}` followed by a non-digit delimiter: the maximal digit run must
have length 1 or 2.  Returns the numeric value and the rest. -/
def num12 (l : List Char) : Option (Nat × List Char) :=
  let ds := l.takeWhile Char.isDigit
  if ds.length = 1 ∨ ds.length = 2 then
    some (digitsVal ds, l.dropWhile Char.isDigit)
  else none

/-- `\d{2}`: exactly two digit characters. -/
def num2exact (l : List Char) : Option (Nat × List Char) :=
  match l with
  | a :: b :: rest =>
    if a.isDigit ∧ b.isDigit then some (10 * digitVal a + digitVal b, rest)
    else none
  | _ => none

def expect (c : Char) (l : List Char) : Option (List Char) :=
  match l with
  | d :: rest => if d = c then some rest else none
  | [] => none

def expectSpace (l : List Char) : Option (List Char) :=
  match l with
  | d :: rest => if isPySpace d then some rest else none
  | [] => none

/-- Captured fields of `FULL_PATTERN`:
`^[\u200E\u200F\s]*\[(\d{1,2}/\d{1,2}/\d{2}),\s(\d{1,2}:\d{2}:\d{2})\]\s([^:]+):\s(.*)$`
with `a/b/yy` the date fields and `hh:mi:ss` the time fields. -/
structure FullFields where
  a : Nat
  b : Nat
  yy : Nat
  hh : Nat
  mi : Nat
  ss : Nat
  sender : List Char
  body : List Char
deriving DecidableEq, Repr

/-- Captured fields of `SHORT_PATTERN`:
`^[\u200E\u200F\s]*\[(\d{1,2}/\d{1,2})\s(\d{1,2}:\d{2})\]\s([^:]+):\s(.*)$`. -/
structure ShortFields where
  a : Nat
  b : Nat
  hh : Nat
  mi : Nat
  sender : List Char
  body : List Char
deriving DecidableEq, Repr

/-- The `([^:]+):\s(.*)$` tail shared by both patterns: a non-empty sender
not containing `:`, the literal `: `, then the body (everything else). -/
def senderBody (l : List Char) : Option (List Char × List Char) :=
  match l.takeWhile (fun c => ¬ (c = ':')) with
  | [] => none
  | sender =>
  match expect ':' (l.dropWhile (fun c => ¬ (c = ':'))) with
  | none => none
  | some l =>
  match expectSpace l with
  | none => none
  | some body => some (sender, body)

/-- `FULL_PATTERN.match(block)`.  The `re.DOTALL` flag makes `(.*)$` capture
the whole remainder of the block, newlines included. -/
def fullMatch (l : List Char) : Option FullFields :=
  match expect '[' (l.dropWhile isMarkOrSpace) with
  | none => none
  | some l =>
  match num12 l with
  | none => none
  | some (a, l) =>
  match expect '/' l with
  | none => none
  | some l =>
  match num12 l with
  | none => none
  | some (b, l) =>
  match expect '/' l with
  | none => none
  | some l =>
  match num2exact l with
  | none => none
  | some (yy, l) =>
  match expect ',' l with
  | none => none
  | some l =>
  match expectSpace l with
  | none => none
  | some l =>
  match num12 l with
  | none => none
  | some (hh, l) =>
  match expect ':' l with
  | none => none
  | some l =>
  match num2exact l with
  | none => none
  | some (mi, l) =>
  match expect ':' l with
  | none => none
  | some l =>
  match num2exact l with
  | none => none
  | some (ss, l) =>
  match expect ']' l with
  | none => none
  | some l =>
  match expectSpace l with
  | none => none
  | some l =>
  match senderBody l with
  | none => none
  | some (sender, body) => some ⟨a, b, yy, hh, mi, ss, sender, body⟩

/-- `SHORT_PATTERN.match(block)`. -/
def shortMatch (l : List Char) : Option ShortFields :=
  match expect '[' (l.dropWhile isMarkOrSpace) with
  | none => none
  | some l =>
  match num12 l with
  | none => none
  | some (a, l) =>
  match expect '/' l with
  | none => none
  | some l =>
  match num12 l with
  | none => none
  | some (b, l) =>
  match expectSpace l with
  | none => none
  | some l =>
  match num12 l with
  | none => none
  | some (hh, l) =>
  match expect ':' l with
  | none => none
  | some l =>
  match num2exact l with
  | none => none
  | some (mi, l) =>
  match expect ']' l with
  | none => none
  | some l =>
  match expectSpace l with
  | none => none
  | some l =>
  match senderBody l with
  | none => none
  | some (sender, body) => some ⟨a, b, hh, mi, sender, body⟩

/-- `MESSAGE_START.match(line)`: `^[\u200E\u200F\s]*\[`. -/
def messageStart (l : List Char) : Bool :=
  match l.dropWhile isMarkOrSpace with
  | '[' :: _ => true
  | _ => false

/-- `clean_line`: remove BOM, LRM and RLM everywhere (each a single-character
`str.replace` with the empty string, i.e. a filter) and strip trailing
newline characters (`rstrip("\n")`). -/
def clean_line (l : List Char) : List Char :=
  ((((l.filter (fun c => ¬ (c = '\uFEFF'))).filter
      (fun c => ¬ (c = '\u200E'))).filter
      (fun c => ¬ (c = '\u200F'))).reverse.dropWhile (fun c => c = '\n')).reverse

-- --------------------------------------------------
-- datetime modelling (Python `datetime.strptime` / `datetime` comparison)
-- --------------------------------------------------

structure DateTime where
  y : Nat
  m : Nat
  d : Nat
  hh : Nat
  mi : Nat
  ss : Nat
deriving DecidableEq, Repr

/-- Python `datetime` comparison: lexicographic on the fields. -/
def DateTime.lt (x z : DateTime) : Bool :=
  if x.y = z.y then
    if x.m = z.m then
      if x.d = z.d then
        if x.hh = z.hh then
          if x.mi = z.mi then decide (x.ss < z.ss)
          else decide (x.mi < z.mi)
        else decide (x.hh < z.hh)
      else decide (x.d < z.d)
    else decide (x.m < z.m)
  else decide (x.y < z.y)

def isLeap (y : Nat) : Bool :=
  y % 4 = 0 && (¬ (y % 100 = 0) || y % 400 = 0)

def daysInMonth (y m : Nat) : Nat :=
  if m = 2 then (if isLeap y then 29 else 28)
  else if m = 4 ∨ m = 6 ∨ m = 9 ∨ m = 11 then 30
  else 31

/-- `strptime`'s `%y` directive: 0-68 map to 2000-2068, 69-99 to 1969-1999. -/
def yearOf (yy : Nat) : Nat := if yy ≤ 68 then 2000 + yy else 1900 + yy

/-- The chosen date ordering: `"%d/%m/%y"` or `"%m/%d/%y"`. -/
inductive DateFormat
  | ddmm
  | mmdd
deriving DecidableEq, Repr

/-- Assign the two captured date fields to (day, month) per the format. -/
def dmOf : DateFormat → Nat → Nat → Nat × Nat
  | .ddmm, a, b => (a, b)
  | .mmdd, a, b => (b, a)

/-- Validity of the date fields under `strptime` + `datetime` construction:
`%d` accepts 1..31 (further bounded by the month length), `%m` accepts 1..12. -/
def validDM (d m y : Nat) : Bool :=
  1 ≤ d && 1 ≤ m && m ≤ 12 && d ≤ daysInMonth y m

/-- `datetime.strptime(f"{date} {hour}", f"{date_format} %H:%M:%S")` on the
fields captured by `FULL_PATTERN`; `none` models the `ValueError`. -/
def resolveFull (fmt : DateFormat) (f : FullFields) : Option DateTime :=
  let dm := dmOf fmt f.a f.b
  let y := yearOf f.yy
  if validDM dm.1 dm.2 y && f.hh ≤ 23 && f.mi ≤ 59 && f.ss ≤ 59 then
    some ⟨y, dm.2, dm.1, f.hh, f.mi, f.ss⟩
  else none

/-- `datetime.strptime(f"{day.zfill(2)}/{month.zfill(2)}/{year} {hour}:00",
f"{short_format} %H:%M:%S")` where `short_format` replaces `%y` by `%Y`
(`%Y` requires a 4-digit year); `none` models the `ValueError`. -/
def resolveShort (fmt : DateFormat) (a b year hh mi : Nat) : Option DateTime :=
  let dm := dmOf fmt a b
  if 1000 ≤ year && year ≤ 9999 && validDM dm.1 dm.2 year
      && hh ≤ 23 && mi ≤ 59 then
    some ⟨year, dm.2, dm.1, hh, mi, 0⟩
  else none

-- --------------------------------------------------
-- Phase 2 - message block parsing
-- --------------------------------------------------

/-- A `ParsedMessage` dict: datetime, sender, message, quoted_message. -/
structure Msg where
  dt : DateTime
  sender : List Char
  message : List Char
  quoted : Bool
deriving DecidableEq, Repr

/-- Exceptions the Python code can raise: `ValueError` from `strptime`,
`IndexError` from `data[-1]` on an empty list. -/
inductive PErr
  | valueError
  | indexError
deriving DecidableEq, Repr

deriving instance DecidableEq for Except

/-- `parse_message_block(block, last_datetime, date_format, detect_quoted)`:
returns `(parsed, last_datetime', (inferred_dates, ignored_lines), is_quote)`
or the exception it raises. -/
def parse_message_block (block : List Char) (last : Option DateTime)
    (fmt : DateFormat) (dq : Bool) :
    Except PErr (Option Msg × Option DateTime × (Nat × Nat) × Bool) :=
  match fullMatch block with
  | some f =>
    match resolveFull fmt f with
    | none => .error .valueError
    | some dt => .ok (some ⟨dt, f.sender, f.body, false⟩, some dt, (0, 0), false)
  | none =>
    match shortMatch block with
    | some s =>
      match last with
      | some ld =>
        match resolveShort fmt s.a s.b ld.y s.hh s.mi with
        | none => .error .valueError
        | some dt =>
          if dq && DateTime.lt dt ld then
            .ok (some ⟨ld, s.sender, s.body, true⟩, some ld, (0, 0), true)
          else
            .ok (some ⟨dt, s.sender, s.body, false⟩, some dt, (1, 0), false)
      | none => .ok (none, last, (0, 1), false)
    | none => .ok (none, last, (0, 1), false)

-- --------------------------------------------------
-- Date format inference
-- --------------------------------------------------

/-- The date candidates collected by `infer_date_format`: the three numeric
fields of `FULL_PATTERN.match(block).group(1)` for each of the first
`sampleSize` blocks that match, represented by their values (as shown in the
header comment, `strptime` acceptance of a captured date string depends only
on the field values). -/
def candidatesOf (blocks : List (List Char)) (sampleSize : Nat) :
    List (Nat × Nat × Nat) :=
  (blocks.take sampleSize).filterMap
    (fun b => (fullMatch b).map (fun f => (f.a, f.b, f.yy)))

/-- `score("%d/%m/%y")`: candidates whose fields parse with day first. -/
def ddmmScore (cs : List (Nat × Nat × Nat)) : Nat :=
  cs.countP (fun c => validDM c.1 c.2.1 (yearOf c.2.2))

/-- `score("%m/%d/%y")`: candidates whose fields parse with month first. -/
def mmddScore (cs : List (Nat × Nat × Nat)) : Nat :=
  cs.countP (fun c => validDM c.2.1 c.1 (yearOf c.2.2))

/-- `infer_date_format(blocks, sample_size)`. -/
def infer_date_format (blocks : List (List Char)) (sampleSize : Nat) :
    DateFormat :=
  let cs := candidatesOf blocks sampleSize
  if cs = [] then .ddmm
  else if ddmmScore cs ≥ mmddScore cs then .ddmm else .mmdd

-- --------------------------------------------------
-- Phase 1 - message segmentation
-- --------------------------------------------------

/-- The stats dict built by `segment_messages`. -/
structure SegStats where
  total_lines : Nat
  parsed_messages : Nat
  multiline_messages : Nat
deriving DecidableEq, Repr

/-- Loop state of `segment_messages`.  `absorbedCont` is verification
instrumentation only (a ghost counter of continuation lines appended to an
open block); no other field depends on it. -/
structure SegState where
  messages : List (List Char)
  current : List (List Char)
  stats : SegStats
  prevStart : Bool
  absorbedCont : Nat
deriving DecidableEq, Repr

def segInit : SegState := ⟨[], [], ⟨0, 0, 0⟩, false, 0⟩

/-- One iteration of the `for raw_line in lines` loop of `segment_messages`. -/
def segStep (st : SegState) (raw : List Char) : SegState :=
  let stats1 : SegStats := { st.stats with total_lines := st.stats.total_lines + 1 }
  let line := clean_line raw
  if messageStart line then
    { messages := st.messages ++ (if st.current = [] then [] else [List.intercalate ['\n'] st.current]),
      current := [line],
      stats := { stats1 with parsed_messages := stats1.parsed_messages + 1 },
      prevStart := true,
      absorbedCont := st.absorbedCont }
  else
    let current := if st.current = [] then st.current else st.current ++ [line]
    let absorbed := if st.current = [] then st.absorbedCont else st.absorbedCont + 1
    if st.prevStart then
      { messages := st.messages, current := current,
        stats := { stats1 with multiline_messages := stats1.multiline_messages + 1 },
        prevStart := false, absorbedCont := absorbed }
    else
      { messages := st.messages, current := current, stats := stats1,
        prevStart := st.prevStart, absorbedCont := absorbed }

/-- `segment_messages(lines)`: blocks plus segmentation stats. -/
def segment_messages (lines : List (List Char)) :
    List (List Char) × SegStats :=
  let st := lines.foldl segStep segInit
  (st.messages ++ (if st.current = [] then [] else [List.intercalate ['\n'] st.current]),
   st.stats)

-- --------------------------------------------------
-- Public API helper - parse_chat
-- --------------------------------------------------

/-- The six-key stats dict of `parse_chat`. -/
structure Stats where
  total_lines : Nat
  parsed_messages : Nat
  multiline_messages : Nat
  inferred_dates : Nat
  ignored_lines : Nat
  quoted_messages : Nat
deriving DecidableEq, Repr

/-- Loop state of `parse_chat`.  `folds` is verification instrumentation only
(a ghost counter of quote folds performed); no other field depends on it. -/
structure ChatState where
  data : List Msg
  last : Option DateTime
  stats : Stats
  first_quote : Bool
  folds : Nat
deriving DecidableEq, Repr

/-- `strftime('%d/%m %H:%M')`: each field zero-padded to two digits (all
fields of a constructed `DateTime` are below 100). -/
def pad2 (n : Nat) : List Char :=
  [Char.ofNat ('0'.toNat + n / 10 % 10), Char.ofNat ('0'.toNat + n % 10)]

def strftimeShort (t : DateTime) : List Char :=
  pad2 t.d ++ '/' :: pad2 t.m ++ ' ' :: pad2 t.hh ++ ':' :: pad2 t.mi

/-- The citation text appended to the previous record's body on a quote fold:
`f"\n[{parsed['datetime'].strftime('%d/%m %H:%M')}] {parsed['sender']}: {parsed['message']}"`. -/
def citationText (dt : DateTime) (sender body : List Char) : List Char :=
  '\n' :: '[' :: (strftimeShort dt ++ ']' :: ' ' :: (sender ++ ':' :: ' ' :: body))

/-- Apply `f` to the last element of a list (`data[-1]` mutation). -/
def updateLast (f : Msg → Msg) (l : List Msg) : List Msg :=
  match l.reverse with
  | [] => []
  | x :: xs => (f x :: xs).reverse

/-- One iteration of the `for block in blocks` loop of `parse_chat`.
`data[-1]` on an empty `data` raises `IndexError`. -/
def chatStep (fmt : DateFormat) (dq : Bool) (st : ChatState) (block : List Char) :
    Except PErr ChatState :=
  match parse_message_block block st.last fmt dq with
  | .error e => .error e
  | .ok (parsed, last1, bstats, is_quote) =>
    let st1 : ChatState :=
      { st with
        last := last1
        stats := { st.stats with
          inferred_dates := st.stats.inferred_dates + bstats.1
          ignored_lines := st.stats.ignored_lines + bstats.2 } }
    match parsed with
    | none => .ok st1
    | some p =>
      match is_quote with
      | true =>
        match st1.data with
        | [] => .error .indexError
        | _ :: _ =>
          let data1 := updateLast
            (fun m => { m with message := m.message ++ citationText p.dt p.sender p.message })
            st1.data
          if st1.first_quote then
            .ok { st1 with
              data := updateLast (fun m => { m with quoted := true }) data1
              first_quote := false
              folds := st1.folds + 1
              stats := { st1.stats with
                multiline_messages := st1.stats.multiline_messages + 1
                quoted_messages := st1.stats.quoted_messages + 1 } }
          else
            .ok { st1 with
              data := data1
              folds := st1.folds + 1 }
      | false =>
        .ok { st1 with data := st1.data ++ [p] }

/-- The block loop of `parse_chat`. -/
def runBlocks (fmt : DateFormat) (dq : Bool) (st : ChatState) :
    List (List Char) → Except PErr ChatState
  | [] => .ok st
  | b :: bs =>
    match chatStep fmt dq st b with
    | .error e => .error e
    | .ok st1 => runBlocks fmt dq st1 bs

/-- The date format used by `parse_chat`: the `import_config` override when
present, otherwise `infer_date_format(blocks)` with the default sample size. -/
def chosenFormat (blocks : List (List Char)) (cfg : Option DateFormat) :
    DateFormat :=
  match cfg with
  | some f => f
  | none => infer_date_format blocks 50

/-- Initial `ChatState` of `parse_chat` given the segmentation stats. -/
def chatInit (seg : SegStats) : ChatState :=
  ⟨[], none, ⟨seg.total_lines, seg.parsed_messages, seg.multiline_messages, 0, 0, 0⟩, true, 0⟩

/-- `parse_chat(lines, detect_quoted, import_config)`, returning the whole
final loop state (or the exception the parse raises). -/
def parse_chat_state (lines : List (List Char)) (dq : Bool)
    (cfg : Option DateFormat) : Except PErr ChatState :=
  match segment_messages lines with
  | (blocks, seg) => runBlocks (chosenFormat blocks cfg) dq (chatInit seg) blocks

/-- `parse_chat`'s return value: the record list (the rows of the DataFrame)
and the stats dict. -/
def parse_chat (lines : List (List Char)) (dq : Bool)
    (cfg : Option DateFormat) : Except PErr (List Msg × Stats) :=
  match parse_chat_state lines dq cfg with
  | .error e => .error e
  | .ok st => .ok (st.data, st.stats)

-- --------------------------------------------------
-- Derived observations used by the statements
-- --------------------------------------------------

/-- Number of records whose `quoted_message` flag is set. -/
def countQuoted (l : List Msg) : Nat := l.countP (fun m => m.quoted)

/-- Whether a parse outcome is the `IndexError` of `data[-1]` on an empty
record list. -/
def isIndexErr (r : Except PErr ChatState) : Bool :=
  match r with
  | .error .indexError => true
  | _ => false

/-- Line-terminator characters (`\n`, `\r`). -/
def isLineTerm (c : Char) : Bool := c = '\n' || c = '\x0d'

/-- Ghost observation of `segment_messages`: the number of continuation lines
actually appended to an open block over the whole run. -/
def segAbsorbed (lines : List (List Char)) : Nat :=
  (lines.foldl segStep segInit).absorbedCont

/-- Header/continuation adjacency count over raw lines: the number of lines
that are a non-header line immediately after a header line (the first
continuation line of a block).  The Bool argument is "previous line was a
header". -/
def countHC (prev : Bool) : List (List Char) → Nat
  | [] => 0
  | l :: ls =>
    (if messageStart (clean_line l) then 0
     else if prev then 1 else 0) + countHC (messageStart (clean_line l)) ls

-- --------------------------------------------------
-- Helper lemmas: updateLast
-- --------------------------------------------------

lemma length_updateLast (f : Msg → Msg) (l : List Msg) :
    (updateLast f l).length = l.length := by
  unfold updateLast
  cases hr : l.reverse with
  | nil =>
    rw [List.reverse_eq_nil_iff] at hr
    simp [hr]
  | cons x xs =>
    have hl : l = (x :: xs).reverse := by
      rw [← hr, List.reverse_reverse]
    simp [hl]

lemma getLast?_updateLast (f : Msg → Msg) (l : List Msg) (m : Msg)
    (h : l.getLast? = some m) :
    (updateLast f l).getLast? = some (f m) := by
  unfold updateLast
  cases hr : l.reverse with
  | nil =>
    rw [List.reverse_eq_nil_iff] at hr
    subst hr
    simp at h
  | cons x xs =>
    have hx : l.getLast? = some x := by
      rw [← List.head?_reverse, hr]
      rfl
    rw [h] at hx
    cases hx
    rw [List.getLast?_reverse]
    rfl

lemma countP_updateLast (p : Msg → Bool) (f : Msg → Msg)
    (hf : ∀ m, p (f m) = p m) (l : List Msg) :
    (updateLast f l).countP p = l.countP p := by
  unfold updateLast
  cases hr : l.reverse with
  | nil =>
    rw [List.reverse_eq_nil_iff] at hr
    simp [hr]
  | cons x xs =>
    have hl : l = (x :: xs).reverse := by
      rw [← hr, List.reverse_reverse]
    rw [hl, (List.reverse_perm _).countP_eq, (List.reverse_perm _).countP_eq,
      List.countP_cons, List.countP_cons, hf]

lemma countP_updateLast_of_zero (p : Msg → Bool) (f : Msg → Msg)
    (hf : ∀ m, p (f m) = true) (l : List Msg) (hne : l ≠ [])
    (h : l.countP p = 0) :
    (updateLast f l).countP p = 1 := by
  unfold updateLast
  cases hr : l.reverse with
  | nil =>
    rw [List.reverse_eq_nil_iff] at hr
    exact absurd hr hne
  | cons x xs =>
    have hl : l = (x :: xs).reverse := by
      rw [← hr, List.reverse_reverse]
    rw [hl, (List.reverse_perm _).countP_eq, List.countP_cons] at h
    rw [(List.reverse_perm _).countP_eq, List.countP_cons, hf]
    by_cases hx : p x = true
    · simp [hx] at h
    · simp [hx] at h ⊢
      exact h

lemma updateLast_ne_nil (f : Msg → Msg) (l : List Msg) (hne : l ≠ []) :
    updateLast f l ≠ [] := by
  intro h
  have := length_updateLast f l
  rw [h] at this
  cases l with
  | nil => exact hne rfl
  | cons a as => simp at this

-- --------------------------------------------------
-- Helper lemmas: parse_message_block inversion
-- --------------------------------------------------

lemma pmb_ok_cases (b : List Char) (last : Option DateTime) (fmt : DateFormat)
    (dq : Bool) (out : Option Msg × Option DateTime × (Nat × Nat) × Bool)
    (h : parse_message_block b last fmt dq = .ok out) :
    (∃ f dt, fullMatch b = some f ∧ resolveFull fmt f = some dt ∧
      out = (some ⟨dt, f.sender, f.body, false⟩, some dt, (0, 0), false)) ∨
    (∃ s ld dt, fullMatch b = none ∧ shortMatch b = some s ∧ last = some ld ∧
      resolveShort fmt s.a s.b ld.y s.hh s.mi = some dt ∧
      (((dq && DateTime.lt dt ld) = true ∧
          out = (some ⟨ld, s.sender, s.body, true⟩, some ld, (0, 0), true)) ∨
       ((dq && DateTime.lt dt ld) = false ∧
          out = (some ⟨dt, s.sender, s.body, false⟩, some dt, (1, 0), false)))) ∨
    (fullMatch b = none ∧ out = (none, last, (0, 1), false)) := by
  cases last with
  | some ld =>
    unfold parse_message_block at h
    split at h
    next f hf =>
      split at h
      next => exact absurd h (by simp)
      next dt hr =>
        injection h with h2
        exact Or.inl ⟨f, dt, hf, hr, h2.symm⟩
    next hf =>
      split at h
      next s hs =>
        dsimp only at h
        split at h
        next => exact absurd h (by simp)
        next dt hr =>
          split at h
          next hq =>
            injection h with h2
            exact Or.inr (Or.inl ⟨s, ld, dt, hf, hs, rfl, hr, Or.inl ⟨hq, h2.symm⟩⟩)
          next hq =>
            injection h with h2
            exact Or.inr (Or.inl ⟨s, ld, dt, hf, hs, rfl, hr,
              Or.inr ⟨by revert hq; cases (dq && DateTime.lt dt ld) <;> simp, h2.symm⟩⟩)
      next hs =>
        injection h with h2
        exact Or.inr (Or.inr ⟨hf, h2.symm⟩)
  | none =>
    unfold parse_message_block at h
    split at h
    next f hf =>
      split at h
      next => exact absurd h (by simp)
      next dt hr =>
        injection h with h2
        exact Or.inl ⟨f, dt, hf, hr, h2.symm⟩
    next hf =>
      split at h
      next s hs =>
        dsimp only at h
        injection h with h2
        exact Or.inr (Or.inr ⟨hf, h2.symm⟩)
      next hs =>
        injection h with h2
        exact Or.inr (Or.inr ⟨hf, h2.symm⟩)

lemma pmb_err (b : List Char) (last : Option DateTime) (fmt : DateFormat)
    (dq : Bool) (e : PErr)
    (h : parse_message_block b last fmt dq = .error e) :
    e = .valueError ∧
    ((∃ f, fullMatch b = some f ∧ resolveFull fmt f = none) ∨
     (∃ s ld, fullMatch b = none ∧ shortMatch b = some s ∧ last = some ld ∧
       resolveShort fmt s.a s.b ld.y s.hh s.mi = none)) := by
  cases last with
  | some ld =>
    unfold parse_message_block at h
    split at h
    next f hf =>
      split at h
      next hr =>
        injection h with h2
        exact ⟨h2.symm, Or.inl ⟨f, hf, hr⟩⟩
      next => exact absurd h (by simp)
    next hf =>
      split at h
      next s hs =>
        dsimp only at h
        split at h
        next hr =>
          injection h with h2
          exact ⟨h2.symm, Or.inr ⟨s, ld, hf, hs, rfl, hr⟩⟩
        next dt hr =>
          split at h
          next => exact absurd h (by simp)
          next => exact absurd h (by simp)
      next hs => exact absurd h (by simp)
  | none =>
    unfold parse_message_block at h
    split at h
    next f hf =>
      split at h
      next hr =>
        injection h with h2
        exact ⟨h2.symm, Or.inl ⟨f, hf, hr⟩⟩
      next => exact absurd h (by simp)
    next hf =>
      split at h
      next s hs =>
        dsimp only at h
        exact absurd h (by simp)
      next hs => exact absurd h (by simp)

lemma pmb_full_invalid (b : List Char) (last : Option DateTime)
    (fmt : DateFormat) (dq : Bool) (f : FullFields)
    (hf : fullMatch b = some f) (hr : resolveFull fmt f = none) :
    parse_message_block b last fmt dq = .error .valueError := by
  unfold parse_message_block
  rw [hf]
  dsimp only
  rw [hr]

lemma pmb_short_invalid (b : List Char) (ld : DateTime) (fmt : DateFormat)
    (dq : Bool) (s : ShortFields)
    (hf : fullMatch b = none) (hs : shortMatch b = some s)
    (hr : resolveShort fmt s.a s.b ld.y s.hh s.mi = none) :
    parse_message_block b (some ld) fmt dq = .error .valueError := by
  unfold parse_message_block
  rw [hf]
  dsimp only
  rw [hs]
  dsimp only
  rw [hr]

-- --------------------------------------------------
-- Helper lemmas: chatStep characterization
-- --------------------------------------------------

/-- Shorthand for the body update a quote fold performs on `data[-1]`. -/
def addCit (p : Msg) (m : Msg) : Msg :=
  { m with message := m.message ++ citationText p.dt p.sender p.message }

/-- Shorthand for the flag update the first quote fold performs. -/
def setQuotedTrue (m : Msg) : Msg := { m with quoted := true }

lemma chatStep_pmb_err (fmt : DateFormat) (dq : Bool) (st : ChatState)
    (b : List Char) (e : PErr)
    (h : parse_message_block b st.last fmt dq = .error e) :
    chatStep fmt dq st b = .error e := by
  unfold chatStep
  rw [h]

lemma chatStep_ign (fmt : DateFormat) (dq : Bool) (st : ChatState)
    (b : List Char) (l1 : Option DateTime) (bs : Nat × Nat) (q : Bool)
    (h : parse_message_block b st.last fmt dq = .ok (none, l1, bs, q)) :
    chatStep fmt dq st b = .ok
      { st with
        last := l1
        stats := { st.stats with
          inferred_dates := st.stats.inferred_dates + bs.1
          ignored_lines := st.stats.ignored_lines + bs.2 } } := by
  unfold chatStep
  rw [h]

lemma chatStep_append (fmt : DateFormat) (dq : Bool) (st : ChatState)
    (b : List Char) (p : Msg) (l1 : Option DateTime) (bs : Nat × Nat)
    (h : parse_message_block b st.last fmt dq = .ok (some p, l1, bs, false)) :
    chatStep fmt dq st b = .ok
      { st with
        data := st.data ++ [p]
        last := l1
        stats := { st.stats with
          inferred_dates := st.stats.inferred_dates + bs.1
          ignored_lines := st.stats.ignored_lines + bs.2 } } := by
  unfold chatStep
  rw [h]

lemma chatStep_quote_nil (fmt : DateFormat) (dq : Bool) (st : ChatState)
    (b : List Char) (p : Msg) (l1 : Option DateTime) (bs : Nat × Nat)
    (hd : st.data = [])
    (h : parse_message_block b st.last fmt dq = .ok (some p, l1, bs, true)) :
    chatStep fmt dq st b = .error .indexError := by
  unfold chatStep
  rw [h]
  dsimp only
  rw [hd]

lemma chatStep_quote_first (fmt : DateFormat) (dq : Bool) (st : ChatState)
    (b : List Char) (p m : Msg) (ms : List Msg) (l1 : Option DateTime)
    (bs : Nat × Nat)
    (hd : st.data = m :: ms) (hfq : st.first_quote = true)
    (h : parse_message_block b st.last fmt dq = .ok (some p, l1, bs, true)) :
    chatStep fmt dq st b = .ok
      { st with
        data := updateLast setQuotedTrue (updateLast (addCit p) (m :: ms))
        last := l1
        first_quote := false
        folds := st.folds + 1
        stats := { st.stats with
          inferred_dates := st.stats.inferred_dates + bs.1
          ignored_lines := st.stats.ignored_lines + bs.2
          multiline_messages := st.stats.multiline_messages + 1
          quoted_messages := st.stats.quoted_messages + 1 } } := by
  unfold chatStep
  rw [h]
  dsimp only
  rw [hd]
  dsimp only
  rw [if_pos hfq]
  rfl

lemma chatStep_quote_later (fmt : DateFormat) (dq : Bool) (st : ChatState)
    (b : List Char) (p m : Msg) (ms : List Msg) (l1 : Option DateTime)
    (bs : Nat × Nat)
    (hd : st.data = m :: ms) (hfq : st.first_quote = false)
    (h : parse_message_block b st.last fmt dq = .ok (some p, l1, bs, true)) :
    chatStep fmt dq st b = .ok
      { st with
        data := updateLast (addCit p) (m :: ms)
        last := l1
        folds := st.folds + 1
        stats := { st.stats with
          inferred_dates := st.stats.inferred_dates + bs.1
          ignored_lines := st.stats.ignored_lines + bs.2 } } := by
  unfold chatStep
  rw [h]
  dsimp only
  rw [hd]
  dsimp only
  rw [if_neg (by simp [hfq])]
  rfl

-- --------------------------------------------------
-- Helper lemmas: orchestrator invariants
-- --------------------------------------------------

/-- Once `last_datetime` is set, at least one record has been appended. -/
def DInv (st : ChatState) : Prop := st.last.isSome = true → st.data ≠ []

lemma chatStep_dinv (fmt : DateFormat) (dq : Bool) (st : ChatState)
    (b : List Char) (st' : ChatState) (hd : DInv st)
    (h : chatStep fmt dq st b = .ok st') : DInv st' := by
  cases hp : parse_message_block b st.last fmt dq with
  | error e =>
    rw [chatStep_pmb_err fmt dq st b e hp] at h
    exact absurd h (by simp)
  | ok out =>
    rcases pmb_ok_cases _ _ _ _ _ hp with
      ⟨f, dt, hf, hr, hout⟩ | ⟨sf, ld, dt, hf, hs, hl, hr, hcase⟩ | ⟨hf, hout⟩
    · subst hout
      rw [chatStep_append fmt dq st b _ _ _ hp] at h
      injection h with h2
      subst h2
      intro _
      simp
    · rcases hcase with ⟨hq, hout⟩ | ⟨hq, hout⟩
      · subst hout
        have hne : st.data ≠ [] := hd (by rw [hl]; rfl)
        obtain ⟨m, ms, hd2⟩ : ∃ m ms, st.data = m :: ms := by
          cases hdd : st.data with
          | nil => exact absurd hdd hne
          | cons a as => exact ⟨a, as, rfl⟩
        by_cases hfq : st.first_quote = true
        · rw [chatStep_quote_first fmt dq st b _ m ms _ _ hd2 hfq hp] at h
          injection h with h2
          subst h2
          intro _
          exact updateLast_ne_nil _ _ (updateLast_ne_nil _ _ (by simp))
        · have hfq2 : st.first_quote = false := by
            revert hfq; cases st.first_quote <;> simp
          rw [chatStep_quote_later fmt dq st b _ m ms _ _ hd2 hfq2 hp] at h
          injection h with h2
          subst h2
          intro _
          exact updateLast_ne_nil _ _ (by simp)
      · subst hout
        rw [chatStep_append fmt dq st b _ _ _ hp] at h
        injection h with h2
        subst h2
        intro _
        simp
    · subst hout
      rw [chatStep_ign fmt dq st b _ _ _ hp] at h
      injection h with h2
      subst h2
      intro hsome
      exact hd hsome

lemma chatStep_err_value (fmt : DateFormat) (dq : Bool) (st : ChatState)
    (b : List Char) (e : PErr) (hd : DInv st)
    (h : chatStep fmt dq st b = .error e) : e = .valueError := by
  cases hp : parse_message_block b st.last fmt dq with
  | error e2 =>
    rw [chatStep_pmb_err fmt dq st b e2 hp] at h
    injection h with h2
    rw [← h2]
    exact (pmb_err _ _ _ _ _ hp).1
  | ok out =>
    rcases pmb_ok_cases _ _ _ _ _ hp with
      ⟨f, dt, hf, hr, hout⟩ | ⟨sf, ld, dt, hf, hs, hl, hr, hcase⟩ | ⟨hf, hout⟩
    · subst hout
      rw [chatStep_append fmt dq st b _ _ _ hp] at h
      exact absurd h (by simp)
    · rcases hcase with ⟨hq, hout⟩ | ⟨hq, hout⟩
      · subst hout
        have hne : st.data ≠ [] := hd (by rw [hl]; rfl)
        obtain ⟨m, ms, hd2⟩ : ∃ m ms, st.data = m :: ms := by
          cases hdd : st.data with
          | nil => exact absurd hdd hne
          | cons a as => exact ⟨a, as, rfl⟩
        by_cases hfq : st.first_quote = true
        · rw [chatStep_quote_first fmt dq st b _ m ms _ _ hd2 hfq hp] at h
          exact absurd h (by simp)
        · have hfq2 : st.first_quote = false := by
            revert hfq; cases st.first_quote <;> simp
          rw [chatStep_quote_later fmt dq st b _ m ms _ _ hd2 hfq2 hp] at h
          exact absurd h (by simp)
      · subst hout
        rw [chatStep_append fmt dq st b _ _ _ hp] at h
        exact absurd h (by simp)
    · subst hout
      rw [chatStep_ign fmt dq st b _ _ _ hp] at h
      exact absurd h (by simp)

lemma runBlocks_ok_dinv (fmt : DateFormat) (dq : Bool) (bs : List (List Char)) :
    ∀ st st', DInv st → runBlocks fmt dq st bs = .ok st' → DInv st' := by
  induction bs with
  | nil =>
    intro st st' hd h
    simp only [runBlocks] at h
    injection h with h2
    rw [← h2]
    exact hd
  | cons b bs ih =>
    intro st st' hd h
    simp only [runBlocks] at h
    cases hc : chatStep fmt dq st b with
    | error e =>
      rw [hc] at h
      exact absurd h (by simp)
    | ok st1 =>
      rw [hc] at h
      exact ih st1 st' (chatStep_dinv fmt dq st b st1 hd hc) h

lemma runBlocks_err_value (fmt : DateFormat) (dq : Bool) (bs : List (List Char)) :
    ∀ st e, DInv st → runBlocks fmt dq st bs = .error e → e = .valueError := by
  induction bs with
  | nil =>
    intro st e hd h
    simp only [runBlocks] at h
    exact absurd h (by simp)
  | cons b bs ih =>
    intro st e hd h
    simp only [runBlocks] at h
    cases hc : chatStep fmt dq st b with
    | error e2 =>
      rw [hc] at h
      injection h with h2
      rw [← h2]
      exact chatStep_err_value fmt dq st b e2 hd hc
    | ok st1 =>
      rw [hc] at h
      exact ih st1 e (chatStep_dinv fmt dq st b st1 hd hc) h

lemma runBlocks_append_split (fmt : DateFormat) (dq : Bool)
    (l1 l2 : List (List Char)) : ∀ st,
    runBlocks fmt dq st (l1 ++ l2) =
      match runBlocks fmt dq st l1 with
      | .error e => .error e
      | .ok st1 => runBlocks fmt dq st1 l2 := by
  induction l1 with
  | nil =>
    intro st
    simp only [runBlocks, List.nil_append]
  | cons b bs ih =>
    intro st
    simp only [runBlocks, List.cons_append]
    cases hc : chatStep fmt dq st b with
    | error e => rfl
    | ok st1 => exact ih st1

/-- The first-quote-latch invariant: the latch is armed exactly while no fold
has happened, the quoted and multiline counters reflect only the first fold,
and exactly `min folds 1` records carry the quoted flag. -/
def QInv (mb : Nat) (st : ChatState) : Prop :=
  st.first_quote = (st.folds == 0) ∧
  st.stats.quoted_messages = min st.folds 1 ∧
  st.stats.multiline_messages = mb + min st.folds 1 ∧
  countQuoted st.data = min st.folds 1

lemma chatStep_qinv (mb : Nat) (fmt : DateFormat) (dq : Bool) (st : ChatState)
    (b : List Char) (st' : ChatState) (hq : QInv mb st)
    (h : chatStep fmt dq st b = .ok st') : QInv mb st' := by
  obtain ⟨hq1, hq2, hq3, hq4⟩ := hq
  cases hp : parse_message_block b st.last fmt dq with
  | error e =>
    rw [chatStep_pmb_err fmt dq st b e hp] at h
    exact absurd h (by simp)
  | ok out =>
    rcases pmb_ok_cases _ _ _ _ _ hp with
      ⟨f, dt, hf, hr, hout⟩ | ⟨sf, ld, dt, hf, hs, hl, hr, hcase⟩ | ⟨hf, hout⟩
    · subst hout
      rw [chatStep_append fmt dq st b _ _ _ hp] at h
      injection h with h2
      subst h2
      refine ⟨hq1, hq2, hq3, ?_⟩
      dsimp only [countQuoted] at hq4 ⊢
      simp only [List.countP_append, List.countP_cons, List.countP_nil]
      simp [hq4]
    · rcases hcase with ⟨hqb, hout⟩ | ⟨hqb, hout⟩
      · subst hout
        cases hd2 : st.data with
        | nil =>
          rw [chatStep_quote_nil fmt dq st b _ _ _ hd2 hp] at h
          exact absurd h (by simp)
        | cons m ms =>
          by_cases hfq : st.first_quote = true
          · have hf0 : st.folds = 0 := by
              have h3 := hq1.symm
              rw [hfq] at h3
              simpa using h3
            rw [chatStep_quote_first fmt dq st b _ m ms _ _ hd2 hfq hp] at h
            injection h with h2
            subst h2
            have hz : countQuoted (updateLast
                (addCit ⟨ld, sf.sender, sf.body, true⟩) (m :: ms)) = 0 := by
              dsimp only [countQuoted]
              rw [countP_updateLast (fun x => x.quoted)
                (addCit ⟨ld, sf.sender, sf.body, true⟩) (fun _ => rfl) (m :: ms)]
              rw [hd2] at hq4
              dsimp only [countQuoted] at hq4
              rw [hq4, hf0]
              simp
            have hone := countP_updateLast_of_zero (fun x => x.quoted)
              setQuotedTrue (fun _ => rfl) _
              (updateLast_ne_nil _ _ (by simp)) hz
            refine ⟨?_, ?_, ?_, ?_⟩ <;> dsimp only
            · simp
            · rw [hq2, hf0]
              omega
            · rw [hq3, hf0]
              omega
            · dsimp only [countQuoted]
              rw [hone, hf0]
              omega
          · have hfq2 : st.first_quote = false := by
              revert hfq; cases st.first_quote <;> simp
            have hf1 : st.folds ≠ 0 := by
              have h3 := hq1.symm
              rw [hfq2] at h3
              simpa using h3
            rw [chatStep_quote_later fmt dq st b _ m ms _ _ hd2 hfq2 hp] at h
            injection h with h2
            subst h2
            refine ⟨?_, ?_, ?_, ?_⟩ <;> dsimp only
            · simp [hfq2]
            · rw [hq2]
              omega
            · rw [hq3]
              omega
            · dsimp only [countQuoted]
              rw [countP_updateLast (fun x => x.quoted)
                (addCit ⟨ld, sf.sender, sf.body, true⟩) (fun _ => rfl) (m :: ms)]
              rw [hd2] at hq4
              dsimp only [countQuoted] at hq4
              rw [hq4]
              omega
      · subst hout
        rw [chatStep_append fmt dq st b _ _ _ hp] at h
        injection h with h2
        subst h2
        refine ⟨hq1, hq2, hq3, ?_⟩
        dsimp only [countQuoted] at hq4 ⊢
        simp only [List.countP_append, List.countP_cons, List.countP_nil]
        simp [hq4]
    · subst hout
      rw [chatStep_ign fmt dq st b _ _ _ hp] at h
      injection h with h2
      subst h2
      exact ⟨hq1, hq2, hq3, hq4⟩

lemma runBlocks_ok_qinv (mb : Nat) (fmt : DateFormat) (dq : Bool)
    (bs : List (List Char)) : ∀ st st', QInv mb st →
    runBlocks fmt dq st bs = .ok st' → QInv mb st' := by
  induction bs with
  | nil =>
    intro st st' hqi h
    simp only [runBlocks] at h
    injection h with h2
    rw [← h2]
    exact hqi
  | cons b bs ih =>
    intro st st' hqi h
    simp only [runBlocks] at h
    cases hc : chatStep fmt dq st b with
    | error e =>
      rw [hc] at h
      exact absurd h (by simp)
    | ok st1 =>
      rw [hc] at h
      exact ih st1 st' (chatStep_qinv mb fmt dq st b st1 hqi hc) h

-- --------------------------------------------------
-- Helper lemmas: segmentation multiline counter
-- --------------------------------------------------

lemma segStep_ml (st : SegState) (l : List Char) :
    (segStep st l).stats.multiline_messages =
      st.stats.multiline_messages +
        (if messageStart (clean_line l) then 0
         else if st.prevStart then 1 else 0) ∧
    (segStep st l).prevStart = messageStart (clean_line l) := by
  by_cases hm : messageStart (clean_line l) = true
  · constructor <;> simp [segStep, hm]
  · by_cases hp : st.prevStart = true <;> by_cases hc : st.current = [] <;>
      constructor <;> simp [segStep, hm, hp, hc]

lemma countHC_cons (prev : Bool) (l : List Char) (ls : List (List Char)) :
    countHC prev (l :: ls) =
      (if messageStart (clean_line l) then 0
       else if prev then 1 else 0) + countHC (messageStart (clean_line l)) ls :=
  rfl

lemma foldl_seg_ml (ls : List (List Char)) : ∀ st : SegState,
    (ls.foldl segStep st).stats.multiline_messages =
      st.stats.multiline_messages + countHC st.prevStart ls := by
  induction ls with
  | nil =>
    intro st
    simp [countHC]
  | cons l ls ih =>
    intro st
    rw [List.foldl_cons, ih (segStep st l), (segStep_ml st l).1,
      (segStep_ml st l).2, countHC_cons, Nat.add_assoc]

-- --------------------------------------------------
-- Concrete inputs used by the claims
-- --------------------------------------------------

def chs (s : String) : List Char := s.data

/-- Scenario 1 of the spec (year inheritance). -/
def linesYear : List (List Char) :=
  [chs "[05/11/23, 09:00:00] Ann: Hi", chs "[05/11 09:01] Ann: are you there?"]

/-- Scenario 2 of the spec (quote fold). -/
def linesQuote : List (List Char) :=
  [chs "[05/11/23, 09:05:00] Ann: look at this", chs "[05/11 08:00] Bob: Hi"]

/-- Two well-formed full-form blocks with decreasing timestamps. -/
def linesBack : List (List Char) :=
  [chs "[05/11/23, 09:00:00] A: x", chs "[01/01/23, 01:00:00] B: y"]

/-- A single anchorless short-form block with an invalid hour. -/
def linesBadShort : List (List Char) :=
  [chs "[05/11 25:00] A: hi"]

/-- A header line followed by two continuation lines. -/
def linesTwoCont : List (List Char) :=
  [chs "[a", chs "b", chs "c"]

/-- Sixty identical full-form blocks whose date is valid only day-first. -/
def blocksSixty : List (List Char) :=
  List.replicate 60 (chs "[13/01/23, 09:00:00] A: x")

-- --------------------------------------------------
-- Helper lemmas: quote-fold core, parse-level errors, clean_line
-- --------------------------------------------------

/-- What one quote-fold step does, for any state with a record to fold into:
it succeeds, keeps the record count, moves `last`/`folds`/`inferred`/`ignored`
as the extractor dictates, leaves the stats otherwise untouched when the
first-quote latch is already spent, and appends the citation to the last
record (also setting its flag when the latch is armed). -/
lemma chatStep_quote_core (fmt : DateFormat) (dq : Bool) (st : ChatState)
    (b : List Char) (p : Msg) (l1 : Option DateTime) (bs : Nat × Nat)
    (hne : st.data ≠ [])
    (h : parse_message_block b st.last fmt dq = .ok (some p, l1, bs, true)) :
    ∃ st', chatStep fmt dq st b = .ok st' ∧
      st'.data.length = st.data.length ∧
      st'.last = l1 ∧
      st'.folds = st.folds + 1 ∧
      (st.first_quote = false →
        st'.stats = { st.stats with
          inferred_dates := st.stats.inferred_dates + bs.1
          ignored_lines := st.stats.ignored_lines + bs.2 }) ∧
      ∃ lm, st.data.getLast? = some lm ∧
        ((st.first_quote = true ∧
            st'.data.getLast? = some (setQuotedTrue (addCit p lm))) ∨
         (st.first_quote = false ∧
            st'.data.getLast? = some (addCit p lm))) := by
  obtain ⟨m, ms, hd2⟩ : ∃ m ms, st.data = m :: ms := by
    cases hdd : st.data with
    | nil => exact absurd hdd hne
    | cons a as => exact ⟨a, as, rfl⟩
  obtain ⟨lm, hlm⟩ : ∃ lm, st.data.getLast? = some lm := by
    cases hgl : st.data.getLast? with
    | none =>
      rw [hd2] at hgl
      simp at hgl
    | some lm => exact ⟨lm, rfl⟩
  have hlm2 : (m :: ms).getLast? = some lm := by rw [← hd2]; exact hlm
  by_cases hfq : st.first_quote = true
  · refine ⟨_, chatStep_quote_first fmt dq st b p m ms l1 bs hd2 hfq h,
      ?_, rfl, rfl, ?_, lm, hlm, Or.inl ⟨hfq, ?_⟩⟩
    · dsimp only
      rw [length_updateLast, length_updateLast, hd2]
    · intro hc
      rw [hfq] at hc
      exact absurd hc (by simp)
    · dsimp only
      exact getLast?_updateLast setQuotedTrue _ _
        (getLast?_updateLast (addCit p) _ _ hlm2)
  · have hfq2 : st.first_quote = false := by
      revert hfq; cases st.first_quote <;> simp
    refine ⟨_, chatStep_quote_later fmt dq st b p m ms l1 bs hd2 hfq2 h,
      ?_, rfl, rfl, fun _ => rfl, lm, hlm, Or.inr ⟨hfq2, ?_⟩⟩
    · dsimp only
      rw [length_updateLast, hd2]
    · dsimp only
      exact getLast?_updateLast (addCit p) _ _ hlm2

/-- The extractor's quote signal, derived from its inputs. -/
lemma pmb_quote_eval (fmt : DateFormat) (b : List Char) (s : ShortFields)
    (ld dt : DateTime)
    (hful : fullMatch b = none) (hsh : shortMatch b = some s)
    (hres : resolveShort fmt s.a s.b ld.y s.hh s.mi = some dt)
    (hlt : DateTime.lt dt ld = true) :
    parse_message_block b (some ld) fmt true =
      .ok (some ⟨ld, s.sender, s.body, true⟩, some ld, (0, 0), true) := by
  unfold parse_message_block
  rw [hful]
  dsimp only
  rw [hsh]
  dsimp only
  rw [hres]
  dsimp only
  rw [if_pos (by simp [hlt])]

/-- `DInv` holds at the initial orchestrator state. -/
lemma chatInit_dinv (seg : SegStats) : DInv (chatInit seg) := by
  intro hx
  simp [chatInit] at hx

/-- `parse_chat_state` raises only the `ValueError` of `strptime`. -/
lemma pcs_err_value (lines : List (List Char)) (dq : Bool)
    (cfg : Option DateFormat) (e : PErr)
    (h : parse_chat_state lines dq cfg = .error e) : e = .valueError := by
  unfold parse_chat_state at h
  exact runBlocks_err_value _ _ _ _ _ (chatInit_dinv _) h

lemma mem_clean_line (l : List Char) (c : Char) (h : c ∈ clean_line l) :
    ¬(c = '\uFEFF') ∧ ¬(c = '\u200E') ∧ ¬(c = '\u200F') := by
  unfold clean_line at h
  rw [List.mem_reverse] at h
  have h2 := (List.dropWhile_sublist _).subset h
  rw [List.mem_reverse] at h2
  rw [List.mem_filter] at h2
  obtain ⟨h3, hp3⟩ := h2
  rw [List.mem_filter] at h3
  obtain ⟨h4, hp2⟩ := h3
  rw [List.mem_filter] at h4
  obtain ⟨h5, hp1⟩ := h4
  exact ⟨by simpa using hp1, by simpa using hp2, by simpa using hp3⟩
  
lemma head?_dropWhile_false (p : Char → Bool) (l : List Char) :
    ∀ c, (l.dropWhile p).head? = some c → p c = false := by
  induction l with
  | nil =>
    intro c h
    simp [List.dropWhile] at h
  | cons a as ih =>
    intro c h
    by_cases hp : p a = true
    · rw [List.dropWhile_cons_of_pos hp] at h
      exact ih c h
    · rw [List.dropWhile_cons_of_neg hp] at h
      injection h with h2
      rw [← h2]
      revert hp
      cases p a <;> simp

lemma citation_grows (msg : List Char) (ld : DateTime) (sn bd : List Char) :
    msg.length < (msg ++ citationText ld sn bd).length := by
  simp [citationText]

-- --------------------------------------------------
-- Witness inputs
-- --------------------------------------------------

def dtAnn : DateTime := ⟨2023, 11, 5, 9, 5, 0⟩

def msgAnn : Msg := ⟨dtAnn, chs "Ann", chs "look at this", false⟩

/-- Orchestrator state after scenario 2's first block, latch still armed. -/
def stLatchArmed : ChatState :=
  ⟨[msgAnn], some dtAnn, ⟨2, 2, 0, 0, 0, 0⟩, true, 0⟩

/-- Same state but with the first-quote latch already spent. -/
def stLatchSpent : ChatState :=
  ⟨[msgAnn], some dtAnn, ⟨2, 2, 0, 0, 0, 0⟩, false, 1⟩

def blockBob : List Char := chs "[05/11 08:00] Bob: Hi"

/-- Final state of `parse_chat_state` on scenario 2. -/
def stQuoteFinal : ChatState :=
  ⟨[⟨dtAnn, chs "Ann", chs "look at this\n[05/11 09:05] Bob: Hi", true⟩],
   some dtAnn, ⟨2, 2, 1, 0, 0, 1⟩, false, 1⟩

def blockBadFull : List Char := chs "[31/04/23, 09:00:00] A: x"

def linesBadFull : List (List Char) := [blockBadFull]

-- --------------------------------------------------
-- Claims
-- --------------------------------------------------

/-- C1: with quote detection enabled, a short-form block whose resolved
timestamp is strictly earlier than the current `last_timestamp` never appears
as a standalone record: the loop step succeeds, the output record count is
unchanged, the formatted citation line is appended to the body of the most
recently appended record (whose body length strictly increases), and
`last_timestamp` is not advanced by the block. -/
theorem C1_quote_fold (fmt : DateFormat) (st : ChatState) (b : List Char)
    (s : ShortFields) (ld dt : DateTime)
    (hful : fullMatch b = none) (hsh : shortMatch b = some s)
    (hlast : st.last = some ld)
    (hres : resolveShort fmt s.a s.b ld.y s.hh s.mi = some dt)
    (hlt : DateTime.lt dt ld = true)
    (hne : st.data ≠ []) :
    ∃ st', chatStep fmt true st b = .ok st' ∧
      st'.data.length = st.data.length ∧
      st'.last = some ld ∧
      ∃ lm lm', st.data.getLast? = some lm ∧ st'.data.getLast? = some lm' ∧
        lm'.message = lm.message ++ citationText ld s.sender s.body ∧
        lm.message.length < lm'.message.length := by
  have hpmb : parse_message_block b st.last fmt true =
      .ok (some ⟨ld, s.sender, s.body, true⟩, some ld, (0, 0), true) := by
    rw [hlast]
    exact pmb_quote_eval fmt b s ld dt hful hsh hres hlt
  obtain ⟨st', hstep, hlen, hlast', hfolds, hstats, lm, hlm, hcase⟩ :=
    chatStep_quote_core fmt true st b _ _ _ hne hpmb
  rcases hcase with ⟨hfq, hgl⟩ | ⟨hfq, hgl⟩
  · exact ⟨st', hstep, hlen, hlast', lm, _, hlm, hgl, rfl,
      citation_grows lm.message ld s.sender s.body⟩
  · exact ⟨st', hstep, hlen, hlast', lm, _, hlm, hgl, rfl,
      citation_grows lm.message ld s.sender s.body⟩

/-- C1 witness: the quote-fold step of scenario 2, run from the state after
the first block. -/
theorem C1_quote_fold_witness :
    ∃ st', chatStep .ddmm true stLatchArmed blockBob = .ok st' ∧
      st'.data.length = stLatchArmed.data.length ∧
      st'.last = some dtAnn ∧
      ∃ lm lm', stLatchArmed.data.getLast? = some lm ∧
        st'.data.getLast? = some lm' ∧
        lm'.message = lm.message ++ citationText dtAnn (chs "Bob") (chs "Hi") ∧
        lm.message.length < lm'.message.length :=
  C1_quote_fold .ddmm stLatchArmed blockBob ⟨5, 11, 8, 0, chs "Bob", chs "Hi"⟩
    dtAnn ⟨2023, 11, 5, 8, 0, 0⟩ (by decide) (by decide) (by decide)
    (by decide) (by decide) (by decide)

/-- C2: over a whole parse, only the first quote fold increments the
`quoted_messages` and `multiline_messages` statistics and sets a record's
quoted flag (so those observables equal `min folds 1`), while every
subsequent fold still appends its citation text to the preceding record's
body but leaves the statistics and the target record's flag unchanged. -/
theorem C2_first_quote_latch :
    (∀ (lines : List (List Char)) (dq : Bool) (cfg : Option DateFormat)
        (st' : ChatState), parse_chat_state lines dq cfg = .ok st' →
        st'.stats.quoted_messages = min st'.folds 1 ∧
        countQuoted st'.data = min st'.folds 1 ∧
        st'.stats.multiline_messages =
          (segment_messages lines).2.multiline_messages + min st'.folds 1) ∧
    (∀ (fmt : DateFormat) (st : ChatState) (b : List Char) (s : ShortFields)
        (ld dt : DateTime), st.first_quote = false →
        fullMatch b = none → shortMatch b = some s → st.last = some ld →
        resolveShort fmt s.a s.b ld.y s.hh s.mi = some dt →
        DateTime.lt dt ld = true → st.data ≠ [] →
        ∃ st', chatStep fmt true st b = .ok st' ∧ st'.stats = st.stats ∧
          ∃ lm lm', st.data.getLast? = some lm ∧
            st'.data.getLast? = some lm' ∧ lm'.quoted = lm.quoted ∧
            lm'.message = lm.message ++ citationText ld s.sender s.body) := by
  constructor
  · intro lines dq cfg st' h
    unfold parse_chat_state at h
    have hqi : QInv (segment_messages lines).2.multiline_messages
        (chatInit (segment_messages lines).2) := by
      refine ⟨rfl, rfl, ?_, rfl⟩
      simp [chatInit]
    have hq := runBlocks_ok_qinv _ _ _ _ _ _ hqi h
    exact ⟨hq.2.1, hq.2.2.2, hq.2.2.1⟩
  · intro fmt st b s ld dt hfq hful hsh hlast hres hlt hne
    have hpmb : parse_message_block b st.last fmt true =
        .ok (some ⟨ld, s.sender, s.body, true⟩, some ld, (0, 0), true) := by
      rw [hlast]
      exact pmb_quote_eval fmt b s ld dt hful hsh hres hlt
    obtain ⟨st', hstep, hlen, hlast', hfolds, hstats, lm, hlm, hcase⟩ :=
      chatStep_quote_core fmt true st b _ _ _ hne hpmb
    rcases hcase with ⟨hfq1, _⟩ | ⟨_, hgl⟩
    · rw [hfq] at hfq1
      exact absurd hfq1 (by simp)
    · refine ⟨st', hstep, ?_, lm, _, hlm, hgl, rfl, rfl⟩
      rw [hstats hfq]
      dsimp only
      rfl

/-- C2 witness: the latch facts at scenario 2's final state, and a second
fold (latch spent) that appends the citation but leaves the statistics and
the target record's flag unchanged. -/
theorem C2_first_quote_latch_witness :
    (parse_chat_state linesQuote true none = .ok stQuoteFinal ∧
      stQuoteFinal.stats.quoted_messages = min stQuoteFinal.folds 1 ∧
      countQuoted stQuoteFinal.data = min stQuoteFinal.folds 1 ∧
      stQuoteFinal.stats.multiline_messages =
        (segment_messages linesQuote).2.multiline_messages +
          min stQuoteFinal.folds 1) ∧
    (∃ st', chatStep .ddmm true stLatchSpent blockBob = .ok st' ∧
      st'.stats = stLatchSpent.stats ∧
      ∃ lm lm', stLatchSpent.data.getLast? = some lm ∧
        st'.data.getLast? = some lm' ∧ lm'.quoted = lm.quoted ∧
        lm'.message = lm.message ++ citationText dtAnn (chs "Bob") (chs "Hi")) :=
  ⟨⟨by decide,
    C2_first_quote_latch.1 linesQuote true none stQuoteFinal (by decide)⟩,
   C2_first_quote_latch.2 .ddmm stLatchSpent blockBob
     ⟨5, 11, 8, 0, chs "Bob", chs "Hi"⟩ dtAnn ⟨2023, 11, 5, 8, 0, 0⟩
     (by decide) (by decide) (by decide) (by decide) (by decide) (by decide)
     (by decide)⟩

/-- C3 counterexample: on sixty full-form day-first-only blocks the
inferencer samples only the first fifty blocks, so the winning day-first
score is 50, not the claimed 60 out of 60; moreover with ten non-matching
blocks in front, only forty candidates are sampled even though sixty
matching blocks exist. -/
theorem C3_sampling_cex :
    ddmmScore (candidatesOf blocksSixty 50) = 50 ∧
    ¬ ddmmScore (candidatesOf blocksSixty 50) = 60 ∧
    infer_date_format blocksSixty 50 = .ddmm ∧
    (candidatesOf (List.replicate 10 (chs "junk") ++ blocksSixty) 50).length
      = 40 ∧
    (List.replicate 10 (chs "junk") ++ blocksSixty).countP
      (fun b2 => (fullMatch b2).isSome) = 60 := by decide

/-- C3 amended: the inferencer samples the full-grammar matches among the
first fifty blocks of the transcript and scores both interpretations on each
sampled token; for sixty full-form day-first-only blocks it selects
day-first with score 50 out of the 50 sampled candidates (month-first
scores 0). -/
theorem C3_sampling_amended :
    infer_date_format blocksSixty 50 = .ddmm ∧
    (candidatesOf blocksSixty 50).length = 50 ∧
    ddmmScore (candidatesOf blocksSixty 50) = 50 ∧
    mmddScore (candidatesOf blocksSixty 50) = 0 := by decide

/-- C4 counterexample: two well-formed full-form blocks with decreasing
timestamps parse into two records whose timestamps strictly decrease, with
no quote folding anywhere (`folds = 0`), refuting the monotonicity
invariant. -/
theorem C4_monotonic_cex :
    parse_chat_state linesBack true none = .ok
      ⟨[⟨⟨2023, 11, 5, 9, 0, 0⟩, chs "A", chs "x", false⟩,
        ⟨⟨2023, 1, 1, 1, 0, 0⟩, chs "B", chs "y", false⟩],
       some ⟨2023, 1, 1, 1, 0, 0⟩, ⟨2, 2, 0, 0, 0, 0⟩, true, 0⟩ ∧
    DateTime.lt ⟨2023, 1, 1, 1, 0, 0⟩ ⟨2023, 11, 5, 9, 0, 0⟩ = true := by
  decide

/-- C4 amended: with quote detection enabled, a short-form block that is
appended as a new record never carries a timestamp strictly earlier than the
previous `last_timestamp`, and a quote fold appends no new record; full-form
blocks, however, may produce out-of-order timestamps. -/
theorem C4_monotonic_amended :
    (∀ (fmt : DateFormat) (b : List Char) (s : ShortFields) (ld : DateTime)
        (p : Msg) (l1 : Option DateTime) (bs : Nat × Nat),
        fullMatch b = none → shortMatch b = some s →
        parse_message_block b (some ld) fmt true = .ok (some p, l1, bs, false) →
        DateTime.lt p.dt ld = false) ∧
    (∀ (fmt : DateFormat) (dq : Bool) (st : ChatState) (b : List Char)
        (p : Msg) (l1 : Option DateTime) (bs : Nat × Nat) (st' : ChatState),
        parse_message_block b st.last fmt dq = .ok (some p, l1, bs, true) →
        chatStep fmt dq st b = .ok st' →
        st'.data.length = st.data.length) := by
  constructor
  · intro fmt b s ld p l1 bs hful hsh h
    rcases pmb_ok_cases _ _ _ _ _ h with
      ⟨f, dt, hf, hr, hout⟩ | ⟨sf, ld2, dt, hf, hs2, hl, hr, hcase⟩ |
      ⟨hf, hout⟩
    · rw [hful] at hf
      cases hf
    · rcases hcase with ⟨hq, hout⟩ | ⟨hq, hout⟩
      · simp only [Prod.mk.injEq] at hout
        exact absurd hout.2.2.2 (by simp)
      · injection hl with hl2
        subst hl2
        simp only [Prod.mk.injEq, Option.some.injEq] at hout
        rw [hout.1]
        dsimp only
        revert hq
        cases DateTime.lt dt ld <;> simp
    · simp only [Prod.mk.injEq] at hout
      exact absurd hout.1 (by simp)
  · intro fmt dq st b p l1 bs st' hpmb hstep
    cases hd2 : st.data with
    | nil =>
      rw [chatStep_quote_nil fmt dq st b p l1 bs hd2 hpmb] at hstep
      exact absurd hstep (by simp)
    | cons m ms =>
      obtain ⟨st2, hstep2, hlen, _⟩ :=
        chatStep_quote_core fmt dq st b p l1 bs (by rw [hd2]; simp) hpmb
      rw [hstep2] at hstep
      injection hstep with h3
      rw [← h3, hlen, hd2]

/-- C4 witness: a later short-form block is appended with a non-decreasing
timestamp, and the concrete quote fold of scenario 2 leaves the record count
at one. -/
theorem C4_monotonic_witness :
    DateTime.lt (⟨2023, 11, 5, 9, 6, 0⟩ : DateTime) dtAnn = false ∧
    stQuoteFinal.data.length = stLatchArmed.data.length :=
  ⟨C4_monotonic_amended.1 .ddmm (chs "[05/11 09:06] Bob: ok")
     ⟨5, 11, 9, 6, chs "Bob", chs "ok"⟩ dtAnn
     ⟨⟨2023, 11, 5, 9, 6, 0⟩, chs "Bob", chs "ok", false⟩
     (some ⟨2023, 11, 5, 9, 6, 0⟩) (1, 0) (by decide) (by decide) (by decide),
   C4_monotonic_amended.2 .ddmm true stLatchArmed blockBob
     ⟨dtAnn, chs "Bob", chs "Hi", true⟩ (some dtAnn) (0, 0) stQuoteFinal
     (by decide) (by decide)⟩

/-- C5 counterexample: in scenario 2 the only output record comes from a
block matching the full grammar, yet its `quoted_message` flag is true in
the final output, because the following quote fold set it. -/
theorem C5_full_primacy_cex :
    fullMatch (chs "[05/11/23, 09:05:00] Ann: look at this") =
      some ⟨5, 11, 23, 9, 5, 0, chs "Ann", chs "look at this"⟩ ∧
    parse_chat linesQuote true none = .ok
      ([⟨⟨2023, 11, 5, 9, 5, 0⟩, chs "Ann",
         chs "look at this\n[05/11 09:05] Bob: Hi", true⟩],
       ⟨2, 2, 1, 0, 0, 1⟩) := by decide

/-- C5 amended: the extractor handles every full-grammar block by creating a
record with `quoted_message = false`, zero inferred dates, zero ignored
lines and no quote signal (a later quote fold may still set the flag on that
record in the output). -/
theorem C5_full_primacy_amended (b : List Char) (last : Option DateTime)
    (fmt : DateFormat) (dq : Bool) (f : FullFields)
    (out : Option Msg × Option DateTime × (Nat × Nat) × Bool)
    (hf : fullMatch b = some f)
    (h : parse_message_block b last fmt dq = .ok out) :
    ∃ dt, resolveFull fmt f = some dt ∧
      out = (some ⟨dt, f.sender, f.body, false⟩, some dt, (0, 0), false) := by
  rcases pmb_ok_cases _ _ _ _ _ h with
    ⟨f2, dt, hf2, hr, hout⟩ | ⟨sf, ld2, dt, hf2, hs2, hl, hr, hcase⟩ |
    ⟨hf2, hout⟩
  · rw [hf] at hf2
    injection hf2 with h3
    subst h3
    exact ⟨dt, hr, hout⟩
  · rw [hf] at hf2
    cases hf2
  · rw [hf] at hf2
    cases hf2

/-- C5 witness: the extractor's output on scenario 1's first block. -/
theorem C5_full_primacy_witness :
    ∃ dt, resolveFull .ddmm ⟨5, 11, 23, 9, 0, 0, chs "Ann", chs "Hi"⟩
        = some dt ∧
      ((some ⟨⟨2023, 11, 5, 9, 0, 0⟩, chs "Ann", chs "Hi", false⟩,
        some ⟨2023, 11, 5, 9, 0, 0⟩, (0, 0), false) :
          Option Msg × Option DateTime × (Nat × Nat) × Bool) =
        (some ⟨dt, chs "Ann", chs "Hi", false⟩, some dt, (0, 0), false) :=
  C5_full_primacy_amended (chs "[05/11/23, 09:00:00] Ann: Hi") none .ddmm true
    ⟨5, 11, 23, 9, 0, 0, chs "Ann", chs "Hi"⟩
    (some ⟨⟨2023, 11, 5, 9, 0, 0⟩, chs "Ann", chs "Hi", false⟩,
      some ⟨2023, 11, 5, 9, 0, 0⟩, (0, 0), false)
    (by decide) (by decide)

/-- C6 counterexample: a header followed by two continuation lines absorbs
two continuation lines into the block but reports `multiline_messages = 1`,
refuting the claim that the counter equals the number of absorbed
continuation lines. -/
theorem C6_multiline_cex :
    segment_messages linesTwoCont = ([chs "[a\nb\nc"], ⟨3, 1, 1⟩) ∧
    segAbsorbed linesTwoCont = 2 ∧
    ¬ (segment_messages linesTwoCont).2.multiline_messages
        = segAbsorbed linesTwoCont := by decide

/-- C6 amended: `multiline_messages` counts the lines that are a non-header
line immediately following a header line, i.e. the first continuation line
of each block, not the total number of continuation lines absorbed. -/
theorem C6_multiline_amended (lines : List (List Char)) :
    (segment_messages lines).2.multiline_messages = countHC false lines := by
  unfold segment_messages
  dsimp only
  have h := foldl_seg_ml lines segInit
  simpa [segInit] using h

/-- C7 counterexample: a short-form block with calendar-invalid fields
(hour 25) that appears before any anchor is not fatal: the grammar matches,
the fields are invalid, yet the parse completes and merely counts the block
as ignored. -/
theorem C7_fatal_cex :
    shortMatch (chs "[05/11 25:00] A: hi") =
      some ⟨5, 11, 25, 0, chs "A", chs "hi"⟩ ∧
    resolveShort .ddmm 5 11 2023 25 0 = none ∧
    parse_chat linesBadShort true none = .ok ([], ⟨1, 1, 0, 0, 1, 0⟩) := by
  decide

/-- C7 amended: a full-form match with calendar-invalid fields always aborts
the parse with the strptime error, as does a short-form match evaluated
against an existing anchor; these are the only aborting conditions (every
parse error is the strptime `ValueError`), while grammar mismatch — and a
short-form match with no anchor, whose fields are never evaluated — merely
degrades to the ignored count. -/
theorem C7_fatal_amended :
    (∀ (b : List Char) (last : Option DateTime) (fmt : DateFormat) (dq : Bool)
        (f : FullFields), fullMatch b = some f → resolveFull fmt f = none →
        parse_message_block b last fmt dq = .error .valueError) ∧
    (∀ (b : List Char) (ld : DateTime) (fmt : DateFormat) (dq : Bool)
        (s : ShortFields), fullMatch b = none → shortMatch b = some s →
        resolveShort fmt s.a s.b ld.y s.hh s.mi = none →
        parse_message_block b (some ld) fmt dq = .error .valueError) ∧
    (∀ (lines : List (List Char)) (dq : Bool) (cfg : Option DateFormat)
        (e : PErr), parse_chat lines dq cfg = .error e → e = .valueError) ∧
    (∀ (lines : List (List Char)) (dq : Bool) (cfg : Option DateFormat)
        (b : List Char) (f : FullFields),
        b ∈ (segment_messages lines).1 → fullMatch b = some f →
        resolveFull (chosenFormat (segment_messages lines).1 cfg) f = none →
        parse_chat lines dq cfg = .error .valueError) := by
  refine ⟨pmb_full_invalid, pmb_short_invalid, ?_, ?_⟩
  · intro lines dq cfg e h
    unfold parse_chat at h
    cases hr : parse_chat_state lines dq cfg with
    | error e2 =>
      rw [hr] at h
      injection h with h2
      rw [← h2]
      exact pcs_err_value _ _ _ _ hr
    | ok st =>
      rw [hr] at h
      exact absurd h (by simp)
  · intro lines dq cfg b f hmem hf hr
    obtain ⟨l1, l2, hsplit⟩ := List.append_of_mem hmem
    have hpcs : parse_chat_state lines dq cfg = .error .valueError := by
      unfold parse_chat_state
      dsimp only
      rw [hsplit] at hr ⊢
      rw [runBlocks_append_split]
      cases hrb : runBlocks (chosenFormat (l1 ++ b :: l2) cfg) dq
          (chatInit (segment_messages lines).2) l1 with
      | error e =>
        have he := runBlocks_err_value _ _ _ _ _ (chatInit_dinv _) hrb
        dsimp only
        rw [he]
      | ok st1 =>
        dsimp only
        simp only [runBlocks]
        rw [chatStep_pmb_err _ _ _ _ _
          (pmb_full_invalid b st1.last (chosenFormat (l1 ++ b :: l2) cfg)
            dq f hf hr)]
    unfold parse_chat
    rw [hpcs]

/-- C7 witness: a full-form block with day 31 in April aborts at the step
level and aborts the whole parse; a short-form block with hour 25 aborts at
the step level once an anchor exists. -/
theorem C7_fatal_witness :
    parse_message_block blockBadFull none .ddmm true = .error .valueError ∧
    parse_message_block (chs "[05/11 25:00] A: hi")
      (some ⟨2023, 11, 5, 9, 0, 0⟩) .ddmm true = .error .valueError ∧
    parse_chat linesBadFull true none = .error .valueError :=
  ⟨C7_fatal_amended.1 blockBadFull none .ddmm true
     ⟨31, 4, 23, 9, 0, 0, chs "A", chs "x"⟩ (by decide) (by decide),
   C7_fatal_amended.2.1 (chs "[05/11 25:00] A: hi") ⟨2023, 11, 5, 9, 0, 0⟩
     .ddmm true ⟨5, 11, 25, 0, chs "A", chs "hi"⟩ (by decide) (by decide)
     (by decide),
   C7_fatal_amended.2.2.2 linesBadFull true none blockBadFull
     ⟨31, 4, 23, 9, 0, 0, chs "A", chs "x"⟩ (by decide) (by decide)
     (by decide)⟩

/-- C8: a short-form block immediately following a full-form record dated
2023-11-05, with no quote-fold condition, yields a new record inheriting
year 2023 with seconds defaulted to zero and increments `inferred_dates` to
one: scenario 1 parses to exactly the two records of the spec. -/
theorem C8_year_inheritance :
    parse_chat linesYear true none = .ok
      ([⟨⟨2023, 11, 5, 9, 0, 0⟩, chs "Ann", chs "Hi", false⟩,
        ⟨⟨2023, 11, 5, 9, 1, 0⟩, chs "Ann", chs "are you there?", false⟩],
       ⟨2, 2, 0, 1, 0, 0⟩) := by decide

/-- C9 counterexample: `clean_line` strips only trailing newline characters
(`rstrip("\n")`), so a line ending in `"\r\n"` still ends in the
line-terminator `'\r'` after normalization. -/
theorem C9_clean_line_cex :
    clean_line (chs "abc\r\n") = chs "abc\r" ∧
    isLineTerm '\r' = true ∧
    (clean_line (chs "abc\r\n")).getLast? = some '\r' := by decide

/-- C9 amended: `clean_line` removes every byte-order mark, left-to-right
mark and right-to-left mark and strips trailing `'\n'` characters, so no
normalized line ends in `'\n'`; it may, however, still end in `'\r'`. -/
theorem C9_clean_line_amended (l : List Char) :
    (clean_line l).countP (fun c => c = '\uFEFF') = 0 ∧
    (clean_line l).countP (fun c => c = '\u200E') = 0 ∧
    (clean_line l).countP (fun c => c = '\u200F') = 0 ∧
    ((clean_line l).getLast? == some '\n') = false := by
  refine ⟨?_, ?_, ?_, ?_⟩
  · rw [List.countP_eq_zero]
    intro a ha
    simpa using (mem_clean_line l a ha).1
  · rw [List.countP_eq_zero]
    intro a ha
    simpa using (mem_clean_line l a ha).2.1
  · rw [List.countP_eq_zero]
    intro a ha
    simpa using (mem_clean_line l a ha).2.2
  · cases hgl : (clean_line l).getLast? with
    | none => rfl
    | some c =>
      have hgl2 := hgl
      unfold clean_line at hgl2
      rw [List.getLast?_reverse] at hgl2
      have hfalse := head?_dropWhile_false _ _ _ hgl2
      simp only [decide_eq_false_iff_not] at hfalse
      simp [hfalse]

/-- C10: the orchestrator's `data[-1]` access is always in bounds: no input
can make `parse_chat` raise the `IndexError` of appending to the last record
of an empty list, because a quote fold requires `last_datetime` to be set
and `last_datetime` is set only in steps that append a record. -/
theorem C10_no_index_error (lines : List (List Char)) (dq : Bool)
    (cfg : Option DateFormat) :
    isIndexErr (parse_chat_state lines dq cfg) = false := by
  cases hr : parse_chat_state lines dq cfg with
  | error e =>
    rw [pcs_err_value lines dq cfg e hr]
    rfl
  | ok st => rfl

end WParse
